import Mathlib

/-!
# Verification of the d2wm-parser ward lifecycle correlation engine

Shallow embedding of `src/lib.rs` (crate `d2wm-parser`): a ward lifecycle
correlator driven by callbacks from an external replay-decoding engine.
The decoding engine, clock (`GameTime`) and roster (`Players`) collaborators
are external; each callback of the embedded trace therefore carries the
observations the code reads from them at that instant.

Modelling conventions:
* `hashbrown::HashMap` and the roster maps are modelled as association lists
  with insert-at-front / first-match lookup (insert overwrites).
* Rust `f32` arithmetic is idealized as exact rational arithmetic (`Rat`);
  the `as i32` cast is truncation toward zero (`f32CastI32`).
* Fallible reads (`property!`, `get_by_handle`, `start_time()`, `tick()`,
  `get_by_class_name`) are `Option`s in the observation records; `none`
  models the failing read.  Propagated `anyhow` errors are `Fault.raised`,
  Rust panics (caught by `catch_unwind` in `parse_replay`) are
  `Fault.unwind`.
* `App.finalized` is ghost instrumentation: it records, for each `Output`
  pushed onto `result`, the handle of the ward that produced it (the code
  pushes the output built from `ward.handle()` at exactly this point); it
  lets us state per-ward properties that `Output` itself does not expose.
-/

/-- Models the Rust `as i32` cast applied to an `f32` value: truncation
toward zero (f32 arithmetic idealized as exact rational arithmetic). -/
def f32CastI32 (q : Rat) : Int := q.num.tdiv q.den

/-- Roster entry for one player slot (`d2_stampede_observers::players`):
hero entity handle, raw team number, steam id. -/
structure Player where
  hero_handle : Nat
  team : Nat
  id : Nat
deriving DecidableEq

/-- `WardClass` from `d2_stampede_observers::wards`. -/
inductive WardClass where
  | Observer
  | Sentry
deriving DecidableEq, BEq

/-- `WardEvent` from `d2_stampede_observers::wards`. -/
inductive WardEvent where
  | Placed
  | Killed (killer : String)
  | Expired
deriving DecidableEq

/-- A ward `Entity` as the code reads it: its handle, the
`m_hOwnerEntity` property, and the `CBodyComponent` spatial properties
read at drain time.  `none` models an absent property. -/
structure Entity where
  handle : Nat
  m_hOwnerEntity : Option Nat
  cellX : Option Nat
  cellY : Option Nat
  cellZ : Option Nat
  vecX : Option Rat
  vecY : Option Rat
  vecZ : Option Rat
deriving DecidableEq

/-- The ward owner's entity, as read at placement: the two alternative
player-slot properties. -/
structure OwnerEntity where
  m_nPlayerID : Option Nat
  m_iPlayerID : Option Nat
deriving DecidableEq

/-- `WardEntry` (the registry record, `src/lib.rs`). -/
structure WardEntry where
  hero_handle : Nat
  placed_tick : Int
  is_radiant : Bool
  is_observer : Bool
deriving DecidableEq

/-- `Output` (`src/lib.rs`): one finalized ward record. -/
structure Output where
  time_placed : Int
  duration : Int
  is_obs : Bool
  is_radiant : Bool
  event : String
  post_game : Bool
  player_placed_steam_id : Nat
  player_destroyed_steam_id : Option Nat
  npc_killed : Option String
  x : Nat
  y : Nat
  z : Nat
  vec_x : Rat
  vec_y : Rat
  vec_z : Rat
  radiant_networth : Int
  dire_networth : Int
deriving DecidableEq

/-- An internal fault: `unwind` models a Rust panic (unwinds to
`catch_unwind`), `raised` models an `anyhow` error propagated through
`ObserverResult` and `?`. -/
inductive Fault where
  | unwind (msg : String)
  | raised (msg : String)
deriving DecidableEq

/-- First-match association-list lookup (model of `HashMap` lookup). -/
def assocLookup {α β : Type} [DecidableEq α] (k : α) : List (α × β) → Option β
  | [] => none
  | (a, b) :: rest => if a = k then some b else assocLookup k rest

/-- `property!` / `?`-propagated read: absent property is an `anyhow`
error carrying the property path. -/
def getProp {α : Type} (v : Option α) (path : String) : Except Fault α :=
  match v with
  | some x => Except.ok x
  | none => Except.error (Fault.raised ("missing property " ++ path))

/-- `HashMap` `Index` access (`map[&key]`): panics when the key is absent. -/
def mapIndex {β : Type} (m : List (Nat × β)) (k : Nat) : Except Fault β :=
  match assocLookup k m with
  | some v => Except.ok v
  | none => Except.error (Fault.unwind "key not found")

/-- `game_time.borrow().tick(ctx)?`: a failing clock read is an `anyhow`
error. -/
def clockTick (t : Option Int) : Except Fault Int :=
  match t with
  | some v => Except.ok v
  | none => Except.error (Fault.raised "game time tick unavailable")

/-- What the code observes from its collaborators during one `tick_end`
callback: the clock's start time (`none` = `start_time()` returned `Err`),
the roster maps, and the two team net-worth reads (resolved by class name;
`none` = lookup or property read failed). -/
structure TickCtx where
  start_time : Option Rat
  handle_to_player : List (Nat × Player)
  hero_to_player : List (String × Player)
  radiant_networth : Option Int
  dire_networth : Option Int
deriving DecidableEq

/-- One `on_ward` callback invocation: arguments plus the collaborator
observations the handler reads (`owner` is the result of
`ctx.entities().get_by_handle(owner_handle)`, `players` the roster slot
vector, `tick` the clock read). -/
structure WardObs where
  ward_class : WardClass
  event : WardEvent
  ward : Entity
  owner : Option OwnerEntity
  players : List Player
  tick : Option Int
deriving DecidableEq

/-- A deferred terminal event: the tuple `(Entity, i32, WardEvent)` pushed
onto `pending_entries`. -/
structure PendingEntry where
  ward : Entity
  tick : Int
  event : WardEvent
deriving DecidableEq

/-- The `App` observer state.  `finalized` is ghost instrumentation (see
module docstring); the source fields are the other three. -/
structure App where
  handle_to_entry : List (Nat × WardEntry)
  pending_entries : List PendingEntry
  result : List Output
  finalized : List Nat
deriving DecidableEq

/-- `App::default()`. -/
def App.init : App := ⟨[], [], [], []⟩

/-- The `event:` field of the output struct literal: `"killed"` /
`"expired"`, any other variant hits `unreachable!()` (a panic). -/
def eventName (ev : WardEvent) : Except Fault String :=
  match ev with
  | WardEvent.Killed _ => Except.ok "killed"
  | WardEvent.Expired => Except.ok "expired"
  | WardEvent.Placed => Except.error (Fault.unwind "internal error: entered unreachable code")

/-- Assembly of one `Output` for one queued entry, following the field
order of the struct literal in `tick_end` (Rust evaluates struct-literal
fields in written order): registry `Index` lookup first, the `event`
match, the `handle_to_player` `Index` lookup, the optional killer
resolution, the spatial property reads, then the two net-worth reads. -/
def drainOne (ctx : TickCtx) (start_time : Rat) (reg : List (Nat × WardEntry))
    (e : PendingEntry) : Except Fault Output := do
  let entry ← mapIndex reg e.ward.handle
  let time_placed := f32CastI32 ((entry.placed_tick : Rat) / 30 - start_time)
  let duration := f32CastI32 (((e.tick - entry.placed_tick : Int) : Rat) / 30)
  let ev ← eventName e.event
  let placed_player ← mapIndex ctx.handle_to_player entry.hero_handle
  let destroyed : Option Nat :=
    match e.event with
    | WardEvent.Killed killer => (assocLookup killer ctx.hero_to_player).map Player.id
    | _ => none
  let killed_name : Option String :=
    match e.event with
    | WardEvent.Killed killer => some killer
    | _ => none
  let px ← getProp e.ward.cellX "CBodyComponent.m_cellX"
  let py ← getProp e.ward.cellY "CBodyComponent.m_cellY"
  let pz ← getProp e.ward.cellZ "CBodyComponent.m_cellZ"
  let vx ← getProp e.ward.vecX "CBodyComponent.m_vecX"
  let vy ← getProp e.ward.vecY "CBodyComponent.m_vecY"
  let vz ← getProp e.ward.vecZ "CBodyComponent.m_vecZ"
  let rnw ← getProp ctx.radiant_networth "m_vecDataTeam.0002.m_iNetWorth"
  let dnw ← getProp ctx.dire_networth "m_vecDataTeam.0003.m_iNetWorth"
  Except.ok
    { time_placed := time_placed
      duration := duration
      is_obs := entry.is_observer
      is_radiant := entry.is_radiant
      event := ev
      post_game := false
      player_placed_steam_id := placed_player.id
      player_destroyed_steam_id := destroyed
      npc_killed := killed_name
      x := px, y := py, z := pz
      vec_x := vx, vec_y := vy, vec_z := vz
      radiant_networth := rnw
      dire_networth := dnw }

/-- The `while let Some(..) = pending_entries.pop_front()` loop body,
iterated over the queue in FIFO order. -/
def drainQueue (ctx : TickCtx) (start_time : Rat) (reg : List (Nat × WardEntry)) :
    List PendingEntry → Except Fault (List Output)
  | [] => Except.ok []
  | e :: rest => do
    let o ← drainOne ctx start_time reg e
    let os ← drainQueue ctx start_time reg rest
    Except.ok (o :: os)

/-- `App::tick_end`: when `start_time()` is `Err` the body is skipped and
the state (queue included) is untouched; otherwise the queue is drained in
FIFO order, each produced output is pushed onto `result` (and its ward's
handle onto the ghost `finalized` list), leaving the queue empty.  A fault
mid-loop aborts the whole session (the partially drained state the Rust
loop leaves behind is never observable past the session boundary), so it
is modelled as discarding the state. -/
def tick_end (ctx : TickCtx) (app : App) : Except Fault App :=
  match ctx.start_time with
  | none => Except.ok app
  | some st =>
    match drainQueue ctx st app.handle_to_entry app.pending_entries with
    | Except.error f => Except.error f
    | Except.ok outs =>
      Except.ok
        { app with
          pending_entries := []
          result := app.result ++ outs
          finalized := app.finalized ++ app.pending_entries.map (fun e => e.ward.handle) }

/-- `App::on_ward` (`WardsObserver` impl): `Placed` resolves the owner and
slot and writes the registry; `Killed` / `Expired` only enqueue a pending
entry stamped with the current clock tick. -/
def on_ward (obs : WardObs) (app : App) : Except Fault App :=
  match obs.event with
  | WardEvent.Placed => do
    let _owner_handle ← getProp obs.ward.m_hOwnerEntity "m_hOwnerEntity"
    let owner ←
      match obs.owner with
      | some ow => Except.ok ow
      | none => Except.error (Fault.raised "entity by handle not found")
    let raw_slot ←
      match owner.m_nPlayerID with
      | some v => Except.ok v
      | none =>
        match owner.m_iPlayerID with
        | some v => Except.ok v
        | none => Except.error (Fault.raised "could not get player slot from ward entity")
    let player_slot := raw_slot >>> 1
    let player ←
      match obs.players.get? player_slot with
      | some p => Except.ok p
      | none => Except.error (Fault.unwind "index out of bounds")
    let tick ← clockTick obs.tick
    Except.ok
      { app with
        handle_to_entry :=
          (obs.ward.handle,
            { hero_handle := player.hero_handle
              placed_tick := tick
              is_radiant := player.team == 2
              is_observer := obs.ward_class == WardClass.Observer }) :: app.handle_to_entry }
  | WardEvent.Killed killer => do
    let tick ← clockTick obs.tick
    Except.ok
      { app with
        pending_entries := app.pending_entries ++ [⟨obs.ward, tick, WardEvent.Killed killer⟩] }
  | WardEvent.Expired => do
    let tick ← clockTick obs.tick
    Except.ok
      { app with
        pending_entries := app.pending_entries ++ [⟨obs.ward, tick, WardEvent.Expired⟩] }

/-- One event of the decoded callback stream. -/
inductive TraceEvent where
  | ward (obs : WardObs)
  | tickEnd (ctx : TickCtx)
deriving DecidableEq

/-- Dispatch of one callback. -/
def step (e : TraceEvent) (app : App) : Except Fault App :=
  match e with
  | TraceEvent.ward obs => on_ward obs app
  | TraceEvent.tickEnd ctx => tick_end ctx app

/-- Processing of a callback stream from a given state; a fault aborts the
session (as `?` / the panic unwind do in `run_to_end`). -/
def runFrom (app : App) : List TraceEvent → Except Fault App
  | [] => Except.ok app
  | e :: rest =>
    match step e app with
    | Except.ok a => runFrom a rest
    | Except.error f => Except.error f

/-- A whole session from `App::default()`. -/
def run (t : List TraceEvent) : Except Fault App := runFrom App.init t

/-- `parser.run_to_end()` followed by the forced final
`app.tick_end(parser.context())`. -/
def sessionRun (t : List TraceEvent) (finalCtx : TickCtx) : Except Fault App :=
  match run t with
  | Except.ok a => tick_end finalCtx a
  | Except.error f => Except.error f

/-- `parse_replay`: the session boundary.  The decoded callback stream `t`
stands for the input byte buffer (decoding is the external engine).
`catch_unwind` turns a panic into an error value, the `and_then` turns an
`anyhow` error into an error value; the result log is returned only on
full success. -/
def parse_replay (t : List TraceEvent) (finalCtx : TickCtx) : Except String (List Output) :=
  match sessionRun t finalCtx with
  | Except.ok a => Except.ok a.result
  | Except.error (Fault.unwind m) => Except.error ("Panic while parsing\n" ++ m)
  | Except.error (Fault.raised m) => Except.error ("Error while parsing\n" ++ m)

/-- Is a `WardEvent` terminal (enqueued rather than registered)? -/
def isTerminal (ev : WardEvent) : Bool :=
  match ev with
  | WardEvent.Placed => false
  | WardEvent.Killed _ => true
  | WardEvent.Expired => true

/-- Handles of the terminal events of a trace, in arrival order. -/
def terminalHandles : List TraceEvent → List Nat
  | [] => []
  | TraceEvent.ward obs :: rest =>
    if isTerminal obs.event then obs.ward.handle :: terminalHandles rest
    else terminalHandles rest
  | TraceEvent.tickEnd _ :: rest => terminalHandles rest

/-- Handles of the queued pending entries, in queue (FIFO) order. -/
def queueHandles (q : List PendingEntry) : List Nat := q.map (fun e => e.ward.handle)

/-! ## Extraction lemmas for `drainOne` -/

theorem drainOne_fields {ctx : TickCtx} {st : Rat} {reg : List (Nat × WardEntry)}
    {e : PendingEntry} {o : Output} {entry : WardEntry}
    (h : drainOne ctx st reg e = Except.ok o)
    (hreg : assocLookup e.ward.handle reg = some entry) :
    o.time_placed = f32CastI32 ((entry.placed_tick : Rat) / 30 - st) ∧
    o.duration = f32CastI32 (((e.tick - entry.placed_tick : Int) : Rat) / 30) ∧
    o.is_obs = entry.is_observer ∧
    o.is_radiant = entry.is_radiant ∧
    eventName e.event = Except.ok o.event ∧
    o.player_destroyed_steam_id =
      (match e.event with
       | WardEvent.Killed killer => (assocLookup killer ctx.hero_to_player).map Player.id
       | _ => none) ∧
    o.npc_killed =
      (match e.event with
       | WardEvent.Killed killer => some killer
       | _ => none) := by
  simp only [drainOne, mapIndex, hreg, bind, Except.bind] at h
  split at h
  · exact absurd h (by simp)
  · split at h
    · exact absurd h (by simp)
    · split at h
      · exact absurd h (by simp)
      · split at h
        · exact absurd h (by simp)
        · split at h
          · exact absurd h (by simp)
          · split at h
            · exact absurd h (by simp)
            · split at h
              · exact absurd h (by simp)
              · split at h
                · exact absurd h (by simp)
                · split at h
                  · exact absurd h (by simp)
                  · split at h
                    · exact absurd h (by simp)
                    · cases h
                      refine ⟨rfl, rfl, rfl, rfl, ?_, rfl, rfl⟩
                      assumption

theorem drainOne_registry_miss {ctx : TickCtx} {st : Rat} {reg : List (Nat × WardEntry)}
    {e : PendingEntry} (hreg : assocLookup e.ward.handle reg = none) :
    drainOne ctx st reg e = Except.error (Fault.unwind "key not found") := by
  simp only [drainOne, mapIndex, hreg, bind, Except.bind]

theorem drainOne_placed_not_ok {ctx : TickCtx} {st : Rat} {reg : List (Nat × WardEntry)}
    {e : PendingEntry} (hev : e.event = WardEvent.Placed) (o : Output) :
    drainOne ctx st reg e ≠ Except.ok o := by
  intro h
  cases hreg : assocLookup e.ward.handle reg with
  | none => rw [drainOne_registry_miss hreg] at h; exact absurd h (by simp)
  | some entry =>
    have := (drainOne_fields h hreg).2.2.2.2.1
    rw [hev] at this
    simp [eventName] at this

theorem drainQueue_nil (ctx : TickCtx) (st : Rat) (reg : List (Nat × WardEntry)) :
    drainQueue ctx st reg [] = Except.ok [] := rfl

theorem drainQueue_length {ctx : TickCtx} {st : Rat} {reg : List (Nat × WardEntry)}
    {q : List PendingEntry} {outs : List Output}
    (h : drainQueue ctx st reg q = Except.ok outs) : outs.length = q.length := by
  induction q generalizing outs with
  | nil => simp only [drainQueue] at h; cases h; rfl
  | cons e rest ih =>
    simp only [drainQueue, bind, Except.bind] at h
    split at h
    · exact absurd h (by simp)
    · split at h
      · exact absurd h (by simp)
      · cases h
        simp [ih (by assumption)]

theorem drainQueue_cons_ok {ctx : TickCtx} {st : Rat} {reg : List (Nat × WardEntry)}
    {e : PendingEntry} {rest : List PendingEntry} {outs : List Output}
    (h : drainQueue ctx st reg (e :: rest) = Except.ok outs) :
    ∃ o os, drainOne ctx st reg e = Except.ok o ∧
      drainQueue ctx st reg rest = Except.ok os ∧ outs = o :: os := by
  simp only [drainQueue, bind, Except.bind] at h
  split at h
  · exact absurd h (by simp)
  · split at h
    · exact absurd h (by simp)
    · cases h
      exact ⟨_, _, by assumption, by assumption, rfl⟩

/-! ## `tick_end` shape lemmas -/

theorem tick_end_no_start {ctx : TickCtx} (app : App) (h : ctx.start_time = none) :
    tick_end ctx app = Except.ok app := by
  simp only [tick_end, h]

theorem tick_end_ok_shape {ctx : TickCtx} {st : Rat} {app a' : App}
    (hst : ctx.start_time = some st) (h : tick_end ctx app = Except.ok a') :
    ∃ outs, drainQueue ctx st app.handle_to_entry app.pending_entries = Except.ok outs ∧
      a' = { app with
             pending_entries := []
             result := app.result ++ outs
             finalized := app.finalized ++ queueHandles app.pending_entries } := by
  simp only [tick_end, hst] at h
  split at h
  · exact absurd h (by simp)
  · cases h
    exact ⟨_, by assumption, rfl⟩

/-! ## `on_ward` shape lemmas -/

theorem on_ward_placed_ok_shape {obs : WardObs} {app a' : App}
    (hev : obs.event = WardEvent.Placed) (h : on_ward obs app = Except.ok a') :
    ∃ oh ow raw p tk,
      obs.ward.m_hOwnerEntity = some oh ∧
      obs.owner = some ow ∧
      (ow.m_nPlayerID = some raw ∨ (ow.m_nPlayerID = none ∧ ow.m_iPlayerID = some raw)) ∧
      obs.players.get? (raw >>> 1) = some p ∧
      obs.tick = some tk ∧
      a' = { app with
             handle_to_entry :=
               (obs.ward.handle,
                 { hero_handle := p.hero_handle
                   placed_tick := tk
                   is_radiant := p.team == 2
                   is_observer := obs.ward_class == WardClass.Observer }) :: app.handle_to_entry } := by
  simp only [on_ward, hev, getProp, clockTick, bind, Except.bind] at h
  cases hoh : obs.ward.m_hOwnerEntity with
  | none => simp only [hoh] at h; exact absurd h (by simp)
  | some oh =>
  simp only [hoh] at h
  cases how : obs.owner with
  | none => simp only [how] at h; exact absurd h (by simp)
  | some ow =>
  simp only [how] at h
  cases hn : ow.m_nPlayerID with
  | some raw =>
    simp only [hn] at h
    cases hp : obs.players.get? (raw >>> 1) with
    | none => simp only [hp] at h; exact absurd h (by simp)
    | some p =>
    simp only [hp] at h
    cases htk : obs.tick with
    | none => simp only [htk] at h; exact absurd h (by simp)
    | some tk =>
    simp only [htk] at h
    cases h
    exact ⟨oh, ow, raw, p, tk, rfl, rfl, Or.inl hn, hp, rfl, rfl⟩
  | none =>
    simp only [hn] at h
    cases hi : ow.m_iPlayerID with
    | none => simp only [hi] at h; exact absurd h (by simp)
    | some raw =>
    simp only [hi] at h
    cases hp : obs.players.get? (raw >>> 1) with
    | none => simp only [hp] at h; exact absurd h (by simp)
    | some p =>
    simp only [hp] at h
    cases htk : obs.tick with
    | none => simp only [htk] at h; exact absurd h (by simp)
    | some tk =>
    simp only [htk] at h
    cases h
    exact ⟨oh, ow, raw, p, tk, rfl, rfl, Or.inr ⟨hn, hi⟩, hp, rfl, rfl⟩

theorem on_ward_terminal_ok_shape {obs : WardObs} {app a' : App}
    (hterm : isTerminal obs.event = true) (h : on_ward obs app = Except.ok a') :
    ∃ tk, obs.tick = some tk ∧
      a' = { app with
             pending_entries := app.pending_entries ++ [⟨obs.ward, tk, obs.event⟩] } := by
  cases hev : obs.event with
  | Placed => rw [hev] at hterm; simp [isTerminal] at hterm
  | Killed killer =>
    simp only [on_ward, hev, clockTick, bind, Except.bind] at h
    cases htk : obs.tick with
    | none => simp only [htk] at h; exact absurd h (by simp)
    | some tk =>
      simp only [htk] at h
      cases h
      exact ⟨tk, rfl, rfl⟩
  | Expired =>
    simp only [on_ward, hev, clockTick, bind, Except.bind] at h
    cases htk : obs.tick with
    | none => simp only [htk] at h; exact absurd h (by simp)
    | some tk =>
      simp only [htk] at h
      cases h
      exact ⟨tk, rfl, rfl⟩

/-! ## Step-level invariants -/

theorem step_finalized_queue {e : TraceEvent} {a a' : App} (h : step e a = Except.ok a') :
    a'.finalized ++ queueHandles a'.pending_entries
      = (a.finalized ++ queueHandles a.pending_entries) ++ terminalHandles [e] := by
  cases e with
  | ward obs =>
    simp only [step] at h
    cases hev : obs.event with
    | Placed =>
      obtain ⟨_, _, _, _, _, _, _, _, _, _, ha'⟩ := on_ward_placed_ok_shape hev h
      subst ha'
      simp [terminalHandles, hev, isTerminal]
    | Killed killer =>
      obtain ⟨tk, _, ha'⟩ := on_ward_terminal_ok_shape (by rw [hev]; rfl) h
      subst ha'
      simp [terminalHandles, hev, isTerminal, queueHandles]
    | Expired =>
      obtain ⟨tk, _, ha'⟩ := on_ward_terminal_ok_shape (by rw [hev]; rfl) h
      subst ha'
      simp [terminalHandles, hev, isTerminal, queueHandles]
  | tickEnd ctx =>
    simp only [step] at h
    cases hst : ctx.start_time with
    | none =>
      rw [tick_end_no_start a hst] at h
      cases h
      simp [terminalHandles]
    | some st =>
      obtain ⟨outs, _, ha'⟩ := tick_end_ok_shape hst h
      subst ha'
      simp [terminalHandles, queueHandles]

theorem step_finalized_mono {e : TraceEvent} {a a' : App} (h : step e a = Except.ok a') :
    ∃ s, a'.finalized = a.finalized ++ s := by
  cases e with
  | ward obs =>
    simp only [step] at h
    cases hev : obs.event with
    | Placed =>
      obtain ⟨_, _, _, _, _, _, _, _, _, _, ha'⟩ := on_ward_placed_ok_shape hev h
      subst ha'; exact ⟨[], by simp⟩
    | Killed killer =>
      obtain ⟨tk, _, ha'⟩ := on_ward_terminal_ok_shape (by rw [hev]; rfl) h
      subst ha'; exact ⟨[], by simp⟩
    | Expired =>
      obtain ⟨tk, _, ha'⟩ := on_ward_terminal_ok_shape (by rw [hev]; rfl) h
      subst ha'; exact ⟨[], by simp⟩
  | tickEnd ctx =>
    simp only [step] at h
    cases hst : ctx.start_time with
    | none =>
      rw [tick_end_no_start a hst] at h
      cases h
      exact ⟨[], by simp⟩
    | some st =>
      obtain ⟨outs, _, ha'⟩ := tick_end_ok_shape hst h
      subst ha'; exact ⟨queueHandles a.pending_entries, rfl⟩

theorem step_result_len {e : TraceEvent} {a a' : App} (h : step e a = Except.ok a')
    (hlen : a.result.length = a.finalized.length) :
    a'.result.length = a'.finalized.length := by
  cases e with
  | ward obs =>
    simp only [step] at h
    cases hev : obs.event with
    | Placed =>
      obtain ⟨_, _, _, _, _, _, _, _, _, _, ha'⟩ := on_ward_placed_ok_shape hev h
      subst ha'; exact hlen
    | Killed killer =>
      obtain ⟨tk, _, ha'⟩ := on_ward_terminal_ok_shape (by rw [hev]; rfl) h
      subst ha'; exact hlen
    | Expired =>
      obtain ⟨tk, _, ha'⟩ := on_ward_terminal_ok_shape (by rw [hev]; rfl) h
      subst ha'; exact hlen
  | tickEnd ctx =>
    simp only [step] at h
    cases hst : ctx.start_time with
    | none =>
      rw [tick_end_no_start a hst] at h
      cases h
      exact hlen
    | some st =>
      obtain ⟨outs, houts, ha'⟩ := tick_end_ok_shape hst h
      subst ha'
      simp [queueHandles, drainQueue_length houts, hlen]

theorem step_queue_terminal {e : TraceEvent} {a a' : App} (h : step e a = Except.ok a')
    (hq : ∀ p ∈ a.pending_entries, isTerminal p.event = true) :
    ∀ p ∈ a'.pending_entries, isTerminal p.event = true := by
  cases e with
  | ward obs =>
    simp only [step] at h
    cases hev : obs.event with
    | Placed =>
      obtain ⟨_, _, _, _, _, _, _, _, _, _, ha'⟩ := on_ward_placed_ok_shape hev h
      subst ha'; exact hq
    | Killed killer =>
      obtain ⟨tk, _, ha'⟩ := on_ward_terminal_ok_shape (by rw [hev]; rfl) h
      subst ha'
      intro p hp
      rcases List.mem_append.mp hp with hp | hp
      · exact hq p hp
      · rcases List.mem_singleton.mp hp with rfl
        rw [hev]; rfl
    | Expired =>
      obtain ⟨tk, _, ha'⟩ := on_ward_terminal_ok_shape (by rw [hev]; rfl) h
      subst ha'
      intro p hp
      rcases List.mem_append.mp hp with hp | hp
      · exact hq p hp
      · rcases List.mem_singleton.mp hp with rfl
        rw [hev]; rfl
  | tickEnd ctx =>
    simp only [step] at h
    cases hst : ctx.start_time with
    | none =>
      rw [tick_end_no_start a hst] at h
      cases h
      exact hq
    | some st =>
      obtain ⟨outs, _, ha'⟩ := tick_end_ok_shape hst h
      subst ha'
      intro p hp
      simp at hp

/-! ## Run-level invariants -/

theorem terminalHandles_cons (e : TraceEvent) (t : List TraceEvent) :
    terminalHandles (e :: t) = terminalHandles [e] ++ terminalHandles t := by
  cases e with
  | ward obs =>
    by_cases hterm : isTerminal obs.event = true
    · simp [terminalHandles, hterm]
    · simp [terminalHandles, hterm]
  | tickEnd ctx => simp [terminalHandles]

theorem terminalHandles_append (xs ys : List TraceEvent) :
    terminalHandles (xs ++ ys) = terminalHandles xs ++ terminalHandles ys := by
  induction xs with
  | nil => simp [terminalHandles]
  | cons e rest ih =>
    rw [List.cons_append, terminalHandles_cons, ih, terminalHandles_cons e rest,
      List.append_assoc]

theorem runFrom_append_ok {a c : App} {xs ys : List TraceEvent}
    (h : runFrom a (xs ++ ys) = Except.ok c) :
    ∃ b, runFrom a xs = Except.ok b ∧ runFrom b ys = Except.ok c := by
  induction xs generalizing a with
  | nil => exact ⟨a, rfl, h⟩
  | cons e rest ih =>
    rw [List.cons_append] at h
    simp only [runFrom] at h ⊢
    cases hs : step e a with
    | error f => rw [hs] at h; exact absurd h (by simp)
    | ok a1 =>
      rw [hs] at h
      exact ih h

theorem runFrom_finalized_queue {a a' : App} {t : List TraceEvent}
    (h : runFrom a t = Except.ok a') :
    a'.finalized ++ queueHandles a'.pending_entries
      = (a.finalized ++ queueHandles a.pending_entries) ++ terminalHandles t := by
  induction t generalizing a with
  | nil => simp only [runFrom] at h; cases h; simp [terminalHandles]
  | cons e rest ih =>
    simp only [runFrom] at h
    cases hs : step e a with
    | error f => rw [hs] at h; exact absurd h (by simp)
    | ok a1 =>
      rw [hs] at h
      rw [ih h, step_finalized_queue hs, terminalHandles_cons e rest]
      simp [List.append_assoc]

theorem runFrom_finalized_mono {a a' : App} {t : List TraceEvent}
    (h : runFrom a t = Except.ok a') :
    ∃ s, a'.finalized = a.finalized ++ s := by
  induction t generalizing a with
  | nil => simp only [runFrom] at h; cases h; exact ⟨[], by simp⟩
  | cons e rest ih =>
    simp only [runFrom] at h
    cases hs : step e a with
    | error f => rw [hs] at h; exact absurd h (by simp)
    | ok a1 =>
      rw [hs] at h
      obtain ⟨s2, h2⟩ := ih h
      obtain ⟨s1, h1⟩ := step_finalized_mono hs
      exact ⟨s1 ++ s2, by rw [h2, h1, List.append_assoc]⟩

theorem runFrom_result_len {a a' : App} {t : List TraceEvent}
    (h : runFrom a t = Except.ok a') (hlen : a.result.length = a.finalized.length) :
    a'.result.length = a'.finalized.length := by
  induction t generalizing a with
  | nil => simp only [runFrom] at h; cases h; exact hlen
  | cons e rest ih =>
    simp only [runFrom] at h
    cases hs : step e a with
    | error f => rw [hs] at h; exact absurd h (by simp)
    | ok a1 =>
      rw [hs] at h
      exact ih h (step_result_len hs hlen)

theorem runFrom_queue_terminal {a a' : App} {t : List TraceEvent}
    (h : runFrom a t = Except.ok a')
    (hq : ∀ p ∈ a.pending_entries, isTerminal p.event = true) :
    ∀ p ∈ a'.pending_entries, isTerminal p.event = true := by
  induction t generalizing a with
  | nil => simp only [runFrom] at h; cases h; exact hq
  | cons e rest ih =>
    simp only [runFrom] at h
    cases hs : step e a with
    | error f => rw [hs] at h; exact absurd h (by simp)
    | ok a1 =>
      rw [hs] at h
      exact ih h (step_queue_terminal hs hq)

theorem run_finalized_queue {a : App} {t : List TraceEvent} (h : run t = Except.ok a) :
    a.finalized ++ queueHandles a.pending_entries = terminalHandles t := by
  have := runFrom_finalized_queue h
  simpa [App.init, queueHandles] using this

theorem run_result_len {a : App} {t : List TraceEvent} (h : run t = Except.ok a) :
    a.result.length = a.finalized.length :=
  runFrom_result_len h rfl

theorem run_queue_terminal {a : App} {t : List TraceEvent} (h : run t = Except.ok a) :
    ∀ p ∈ a.pending_entries, isTerminal p.event = true :=
  runFrom_queue_terminal h (by intro p hp; simp [App.init] at hp)

/-! ## Arithmetic facts about the `as i32` cast -/

theorem f32CastI32_eq_floor_of_nonneg (q : Rat) (h : 0 ≤ q) : f32CastI32 q = ⌊q⌋ := by
  have hn : 0 ≤ q.num := Rat.num_nonneg.mpr h
  have hd : 0 ≤ (q.den : Int) := Int.ofNat_nonneg q.den
  rw [f32CastI32, Int.tdiv_eq_ediv hn hd, Rat.floor_def]

theorem f32CastI32_nonneg (q : Rat) (h : 0 ≤ q) : 0 ≤ f32CastI32 q := by
  have hn : 0 ≤ q.num := Rat.num_nonneg.mpr h
  have hd : 0 ≤ (q.den : Int) := Int.ofNat_nonneg q.den
  rw [f32CastI32, Int.tdiv_eq_ediv hn hd]
  exact Int.ediv_nonneg hn hd

/-! ## Shared concrete example data (used by witnesses and counterexamples) -/

/-- Placing player: roster slot 2, team 2 (Radiant), hero handle 21. -/
def exPlayer : Player := ⟨21, 2, 76561⟩

/-- The killer hero's player. -/
def exLina : Player := ⟨33, 3, 111⟩

/-- A ward entity with handle `h` and all properties present. -/
def exWard (h : Nat) : Entity := ⟨h, some 11, some 100, some 101, some 7, some 0, some 0, some 0⟩

/-- Owner entity exposing `m_nPlayerID = 4` (raw slot 4, roster index 2). -/
def exOwner : OwnerEntity := ⟨some 4, none⟩

/-- Roster slot vector: index 2 is `exPlayer`. -/
def exPlayers : List Player := [⟨1, 3, 1⟩, ⟨2, 3, 2⟩, exPlayer]

/-- A tick-end observation with the given start time. -/
def exTickCtx (st : Option Rat) : TickCtx :=
  ⟨st, [(21, exPlayer), (33, exLina)], [("npc_dota_hero_lina", exLina)], some 100, some 200⟩

/-- A placement callback for ward handle `h` at tick `tk`. -/
def placeObs (h : Nat) (tk : Int) : WardObs :=
  ⟨WardClass.Observer, WardEvent.Placed, exWard h, some exOwner, exPlayers, some tk⟩

/-- A kill callback for ward handle `h` at tick `tk`. -/
def killObs (h : Nat) (tk : Int) : WardObs :=
  ⟨WardClass.Observer, WardEvent.Killed "npc_dota_hero_lina", exWard h, some exOwner, exPlayers, some tk⟩

/-- An expiry callback for ward handle `h` at tick `tk`. -/
def expireObs (h : Nat) (tk : Int) : WardObs :=
  ⟨WardClass.Observer, WardEvent.Expired, exWard h, some exOwner, exPlayers, some tk⟩

/-- Concrete drain context with start time 5 s. -/
def wCtx : TickCtx := exTickCtx (some 5)

/-- Concrete registry: ward 7 placed at tick 900 by a Radiant observer ward. -/
def wReg : List (Nat × WardEntry) := [(7, ⟨21, 900, true, true⟩)]

/-- Concrete queued terminal event: ward 7 killed by Lina at tick 1200. -/
def wEntry : PendingEntry := ⟨exWard 7, 1200, WardEvent.Killed "npc_dota_hero_lina"⟩

/-- The output `drainOne wCtx 5 wReg wEntry` produces. -/
def wOut : Output :=
  ⟨25, 10, true, true, "killed", false, 76561, some 111, some "npc_dota_hero_lina",
   100, 101, 7, 0, 0, 0, 100, 200⟩

/-- An app state holding one queued pending event. -/
def wApp : App := ⟨[], [wEntry], [], []⟩

set_option maxRecDepth 8000

/-! ## Claim C3 -/

/-- Claim C3: if at a tick-end the clock's start time is unavailable, the
callback performs no drain — the state (queue included, in order) is
returned untouched and no output is appended — while a tick-end at which
the start time is available drains the whole queue (one output per entry,
queue left empty), so deferred events are resolved then. -/
theorem clock_unavailable_skips_drain :
    (∀ (ctx : TickCtx) (app : App), ctx.start_time = none →
      tick_end ctx app = Except.ok app) ∧
    (∀ (ctx' : TickCtx) (st : Rat) (app a' : App), ctx'.start_time = some st →
      tick_end ctx' app = Except.ok a' →
      a'.pending_entries = [] ∧
      a'.result.length = app.result.length + app.pending_entries.length) := by
  constructor
  · exact fun ctx app h => tick_end_no_start app h
  · intro ctx' st app a' hst h
    obtain ⟨outs, houts, ha'⟩ := tick_end_ok_shape hst h
    subst ha'
    simp [drainQueue_length houts]

/-- Witness for C3: a concrete clock-less tick-end leaves a one-entry queue
exactly in place. -/
theorem clock_unavailable_skips_drain_witness :
    tick_end (exTickCtx none) wApp = Except.ok wApp :=
  clock_unavailable_skips_drain.1 (exTickCtx none) wApp rfl

/-! ## Claim C4 -/

/-- Trace refuting the floor formula: ward 7 placed at tick 15 (0.5 s),
killed at tick 1200, drained with start time 5 s, so the exact value of
`placed_tick / 30 − start_time` is −4.5. -/
def c4Trace : List TraceEvent :=
  [TraceEvent.ward (placeObs 7 15), TraceEvent.ward (killObs 7 1200),
   TraceEvent.tickEnd (exTickCtx (some 5))]

/-- Claim C4 counterexample: on `c4Trace` the registry records placement
tick 15 and the drain (start time 5) emits `time_placed = -4`, but
`floor(15/30 − 5) = -5`: the code truncates toward zero instead of
flooring, so the claimed formula fails for wards placed before the match
start time. -/
theorem time_placed_floor_counterexample :
    (match run c4Trace with
     | Except.ok a => a.result.map Output.time_placed
     | Except.error _ => []) = [-4] ∧
    (match run c4Trace with
     | Except.ok a => (assocLookup 7 a.handle_to_entry).map WardEntry.placed_tick
     | Except.error _ => none) = some 15 ∧
    ⌊(15 : Rat) / 30 - 5⌋ = -5 ∧ (-4 : Int) ≠ -5 := by
  refine ⟨?_, ?_, ?_, by decide⟩
  · with_unfolding_all decide
  · with_unfolding_all decide
  · with_unfolding_all decide

/-- Claim C4 (amended): for every Output, `time_placed` is the truncation
toward zero of `placed_tick / 30 − start_time` (the Rust `as i32` cast on
the f32 value, idealized as an exact rational); this agrees with the
spec's floor formula whenever the value is nonnegative (e.g. placed tick
900 with start time 5 gives 25), but rounds up for wards placed before
the start time. -/
theorem time_placed_truncation {ctx : TickCtx} {st : Rat} {reg : List (Nat × WardEntry)}
    {e : PendingEntry} {o : Output} {entry : WardEntry}
    (h : drainOne ctx st reg e = Except.ok o)
    (hreg : assocLookup e.ward.handle reg = some entry) :
    o.time_placed = f32CastI32 ((entry.placed_tick : Rat) / 30 - st) ∧
    (0 ≤ (entry.placed_tick : Rat) / 30 - st →
      o.time_placed = ⌊(entry.placed_tick : Rat) / 30 - st⌋) := by
  have htp := (drainOne_fields h hreg).1
  exact ⟨htp, fun hnn => by rw [htp, f32CastI32_eq_floor_of_nonneg _ hnn]⟩

/-- Witness for the amended C4 at the spec's own example: placed tick 900,
start time 5 — both the truncation and (since the value is nonnegative)
the floor give 25. -/
theorem time_placed_truncation_witness :
    wOut.time_placed = f32CastI32 (((900 : Int) : Rat) / 30 - 5) ∧
    wOut.time_placed = ⌊((900 : Int) : Rat) / 30 - 5⌋ ∧ wOut.time_placed = 25 := by
  have hd : drainOne wCtx 5 wReg wEntry = Except.ok wOut := by with_unfolding_all rfl
  have hl : assocLookup wEntry.ward.handle wReg = some ⟨21, 900, true, true⟩ := by
    with_unfolding_all decide
  have h := time_placed_truncation hd hl
  exact ⟨h.1, h.2 (by norm_num), by with_unfolding_all decide⟩

/-! ## Claim C5 -/

/-- Claim C5: for every Output, under the upstream-guaranteed precondition
that the terminal event's tick is at least the placement tick, `duration`
equals `floor((event_tick − placed_tick) / 30)` and is nonnegative. -/
theorem duration_floor_nonneg {ctx : TickCtx} {st : Rat} {reg : List (Nat × WardEntry)}
    {e : PendingEntry} {o : Output} {entry : WardEntry}
    (h : drainOne ctx st reg e = Except.ok o)
    (hreg : assocLookup e.ward.handle reg = some entry)
    (hle : entry.placed_tick ≤ e.tick) :
    o.duration = ⌊((e.tick - entry.placed_tick : Int) : Rat) / 30⌋ ∧ 0 ≤ o.duration := by
  have hdur := (drainOne_fields h hreg).2.1
  have hq : 0 ≤ ((e.tick - entry.placed_tick : Int) : Rat) / 30 := by
    apply div_nonneg _ (by norm_num)
    exact_mod_cast sub_nonneg.mpr hle
  rw [hdur, f32CastI32_eq_floor_of_nonneg _ hq]
  exact ⟨rfl, Int.floor_nonneg.mpr hq⟩

/-- Witness for C5 at the spec's example: killed at tick 1200, placed at
tick 900 gives duration `(1200 − 900)/30 = 10 ≥ 0`. -/
theorem duration_floor_nonneg_witness :
    wOut.duration = ⌊(((1200 : Int) - 900 : Int) : Rat) / 30⌋ ∧ 0 ≤ wOut.duration ∧
    wOut.duration = 10 := by
  have hd : drainOne wCtx 5 wReg wEntry = Except.ok wOut := by with_unfolding_all rfl
  have hl : assocLookup wEntry.ward.handle wReg = some ⟨21, 900, true, true⟩ := by
    with_unfolding_all decide
  have h := duration_floor_nonneg hd hl (by with_unfolding_all decide)
  exact ⟨h.1, h.2, by with_unfolding_all decide⟩

/-! ## Claim C6 -/

theorem drainOne_ok_lookup {ctx : TickCtx} {st : Rat} {reg : List (Nat × WardEntry)}
    {e : PendingEntry} {o : Output} (h : drainOne ctx st reg e = Except.ok o) :
    ∃ entry, assocLookup e.ward.handle reg = some entry := by
  cases hreg : assocLookup e.ward.handle reg with
  | some entry => exact ⟨entry, rfl⟩
  | none => rw [drainOne_registry_miss hreg] at h; exact absurd h (by simp)

/-- Claim C6: a drained `Killed(killer)` event yields `event = "killed"`,
`npc_killed = killer`, and a destroyer id exactly when the roster's
hero→player map contains the killer; a drained `Expired` event yields
`event = "expired"` with both optional fields absent; the queue never
holds any other payload, and draining such a payload can never produce an
Output (it traps). -/
theorem output_event_payload_fields :
    (∀ (ctx : TickCtx) (st : Rat) (reg : List (Nat × WardEntry)) (e : PendingEntry)
       (o : Output) (killer : String),
      e.event = WardEvent.Killed killer →
      drainOne ctx st reg e = Except.ok o →
      o.event = "killed" ∧ o.npc_killed = some killer ∧
      o.player_destroyed_steam_id = (assocLookup killer ctx.hero_to_player).map Player.id ∧
      (o.player_destroyed_steam_id.isSome ↔ (assocLookup killer ctx.hero_to_player).isSome)) ∧
    (∀ (ctx : TickCtx) (st : Rat) (reg : List (Nat × WardEntry)) (e : PendingEntry)
       (o : Output),
      e.event = WardEvent.Expired →
      drainOne ctx st reg e = Except.ok o →
      o.event = "expired" ∧ o.player_destroyed_steam_id = none ∧ o.npc_killed = none) ∧
    (∀ (t : List TraceEvent) (a : App), run t = Except.ok a →
      ∀ p ∈ a.pending_entries, isTerminal p.event = true) ∧
    (∀ (ctx : TickCtx) (st : Rat) (reg : List (Nat × WardEntry)) (e : PendingEntry),
      e.event = WardEvent.Placed → ∀ o, drainOne ctx st reg e ≠ Except.ok o) := by
  refine ⟨?_, ?_, ?_, ?_⟩
  · intro ctx st reg e o killer hev h
    obtain ⟨entry, hreg⟩ := drainOne_ok_lookup h
    have hf := drainOne_fields h hreg
    have hevn := hf.2.2.2.2.1
    rw [hev] at hevn
    have hdest := hf.2.2.2.2.2.1
    rw [hev] at hdest
    have hnpc := hf.2.2.2.2.2.2
    rw [hev] at hnpc
    refine ⟨?_, hnpc, hdest, ?_⟩
    · simp [eventName] at hevn; exact hevn.symm
    · rw [hdest]; simp [Option.isSome_map]
  · intro ctx st reg e o hev h
    obtain ⟨entry, hreg⟩ := drainOne_ok_lookup h
    have hf := drainOne_fields h hreg
    have hevn := hf.2.2.2.2.1
    rw [hev] at hevn
    have hdest := hf.2.2.2.2.2.1
    rw [hev] at hdest
    have hnpc := hf.2.2.2.2.2.2
    rw [hev] at hnpc
    refine ⟨?_, hdest, hnpc⟩
    simp [eventName] at hevn; exact hevn.symm
  · exact fun t a h => run_queue_terminal h
  · exact fun ctx st reg e hev o => drainOne_placed_not_ok hev o

/-- Concrete expired pending entry for ward 7. -/
def wEntryExp : PendingEntry := ⟨exWard 7, 1200, WardEvent.Expired⟩

/-- The output `drainOne wCtx 5 wReg wEntryExp` produces. -/
def wOutExp : Output :=
  ⟨25, 10, true, true, "expired", false, 76561, none, none,
   100, 101, 7, 0, 0, 0, 100, 200⟩

/-- Witness for C6: the concrete killed and expired drains produce the
claimed field values. -/
theorem output_event_payload_fields_witness :
    (wOut.event = "killed" ∧ wOut.npc_killed = some "npc_dota_hero_lina" ∧
      wOut.player_destroyed_steam_id = some 111) ∧
    (wOutExp.event = "expired" ∧ wOutExp.player_destroyed_steam_id = none ∧
      wOutExp.npc_killed = none) := by
  have hk := output_event_payload_fields.1 wCtx 5 wReg wEntry wOut "npc_dota_hero_lina"
    (by with_unfolding_all rfl) (by with_unfolding_all rfl)
  have he := output_event_payload_fields.2.1 wCtx 5 wReg wEntryExp wOutExp
    (by with_unfolding_all rfl) (by with_unfolding_all rfl)
  exact ⟨⟨hk.1, hk.2.1, by rw [hk.2.2.1]; with_unfolding_all rfl⟩, he⟩

/-! ## Claim C7 -/

/-- Claim C7: a terminal event whose handle has no recorded placement
traps as a panic at drain (it can never produce an Output); the session
boundary `parse_replay` converts every internal fault — panic or error —
into a single error value, and returns the result log only on full
success. -/
theorem registry_miss_traps :
    (∀ (ctx : TickCtx) (st : Rat) (reg : List (Nat × WardEntry)) (e : PendingEntry),
      assocLookup e.ward.handle reg = none →
      drainOne ctx st reg e = Except.error (Fault.unwind "key not found") ∧
      ∀ o, drainOne ctx st reg e ≠ Except.ok o) ∧
    (∀ (t : List TraceEvent) (c : TickCtx) (m : String),
      sessionRun t c = Except.error (Fault.unwind m) →
      parse_replay t c = Except.error ("Panic while parsing\n" ++ m)) ∧
    (∀ (t : List TraceEvent) (c : TickCtx) (m : String),
      sessionRun t c = Except.error (Fault.raised m) →
      parse_replay t c = Except.error ("Error while parsing\n" ++ m)) ∧
    (∀ (t : List TraceEvent) (c : TickCtx) (r : List Output),
      parse_replay t c = Except.ok r ↔
        ∃ a, sessionRun t c = Except.ok a ∧ a.result = r) := by
  refine ⟨?_, ?_, ?_, ?_⟩
  · intro ctx st reg e hreg
    refine ⟨drainOne_registry_miss hreg, ?_⟩
    intro o h
    rw [drainOne_registry_miss hreg] at h
    exact absurd h (by simp)
  · intro t c m h
    simp only [parse_replay, h]
  · intro t c m h
    simp only [parse_replay, h]
  · intro t c r
    constructor
    · intro h
      simp only [parse_replay] at h
      cases hs : sessionRun t c with
      | ok a =>
        rw [hs] at h
        cases h
        exact ⟨a, rfl, rfl⟩
      | error f =>
        rw [hs] at h
        cases f <;> exact absurd h (by simp)
    · intro ⟨a, hs, hr⟩
      simp only [parse_replay, hs, hr]

/-- A kill event for ward 9, which was never placed. -/
def c7Trace : List TraceEvent := [TraceEvent.ward (killObs 9 100)]

/-- Witness for C7: on `c7Trace` (terminal event, placement never
recorded) the final forced drain panics and `parse_replay` returns the
converted error value, not a result log. -/
theorem registry_miss_traps_witness :
    parse_replay c7Trace wCtx = Except.error ("Panic while parsing\n" ++ "key not found") :=
  registry_miss_traps.2.1 c7Trace wCtx "key not found" (by with_unfolding_all rfl)

/-! ## Claim C8 -/

/-- Claim C8: at placement the player slot is read from the owner entity
under `m_nPlayerID` first, falling back to `m_iPlayerID`; the raw value is
right-shifted by one bit to index the roster; if neither property is
present the handler fails with the fatal error that aborts the session. -/
theorem placement_player_slot_resolution :
    (∀ (obs : WardObs) (app : App) (ow : OwnerEntity) (oh raw : Nat) (p : Player) (tk : Int),
      obs.event = WardEvent.Placed →
      obs.ward.m_hOwnerEntity = some oh →
      obs.owner = some ow →
      ow.m_nPlayerID = some raw →
      obs.players.get? (raw >>> 1) = some p →
      obs.tick = some tk →
      on_ward obs app = Except.ok
        { app with
          handle_to_entry :=
            (obs.ward.handle,
              { hero_handle := p.hero_handle
                placed_tick := tk
                is_radiant := p.team == 2
                is_observer := obs.ward_class == WardClass.Observer }) :: app.handle_to_entry }) ∧
    (∀ (obs : WardObs) (app : App) (ow : OwnerEntity) (oh raw : Nat) (p : Player) (tk : Int),
      obs.event = WardEvent.Placed →
      obs.ward.m_hOwnerEntity = some oh →
      obs.owner = some ow →
      ow.m_nPlayerID = none →
      ow.m_iPlayerID = some raw →
      obs.players.get? (raw >>> 1) = some p →
      obs.tick = some tk →
      on_ward obs app = Except.ok
        { app with
          handle_to_entry :=
            (obs.ward.handle,
              { hero_handle := p.hero_handle
                placed_tick := tk
                is_radiant := p.team == 2
                is_observer := obs.ward_class == WardClass.Observer }) :: app.handle_to_entry }) ∧
    (∀ (obs : WardObs) (app : App) (ow : OwnerEntity) (oh : Nat),
      obs.event = WardEvent.Placed →
      obs.ward.m_hOwnerEntity = some oh →
      obs.owner = some ow →
      ow.m_nPlayerID = none →
      ow.m_iPlayerID = none →
      on_ward obs app =
        Except.error (Fault.raised "could not get player slot from ward entity")) := by
  refine ⟨?_, ?_, ?_⟩
  · intro obs app ow oh raw p tk hev hoh how hn hp htk
    simp only [on_ward, hev, getProp, clockTick, bind, Except.bind, hoh, how, hn, hp, htk]
  · intro obs app ow oh raw p tk hev hoh how hn hi hp htk
    simp only [on_ward, hev, getProp, clockTick, bind, Except.bind, hoh, how, hn, hi, hp, htk]
  · intro obs app ow oh hev hoh how hn hi
    simp only [on_ward, hev, getProp, clockTick, bind, Except.bind, hoh, how, hn, hi]

/-- Owner entity exposing only the fallback property `m_iPlayerID`. -/
def exOwnerFallback : OwnerEntity := ⟨none, some 4⟩

/-- Owner entity exposing neither player-slot property. -/
def exOwnerBare : OwnerEntity := ⟨none, none⟩

/-- A placement whose owner entity is `ow`. -/
def placeObsWith (ow : OwnerEntity) : WardObs :=
  ⟨WardClass.Observer, WardEvent.Placed, exWard 7, some ow, exPlayers, some 900⟩

/-- Witness for C8: raw slot 4 shifts to roster index 2 under either
property name (the registry entry records slot 2's hero handle 21), and
an owner with neither property makes placement fail with the fatal
error. -/
theorem placement_player_slot_resolution_witness :
    on_ward (placeObsWith exOwner) App.init = Except.ok
      { App.init with handle_to_entry := [(7, ⟨21, 900, true, true⟩)] } ∧
    on_ward (placeObsWith exOwnerFallback) App.init = Except.ok
      { App.init with handle_to_entry := [(7, ⟨21, 900, true, true⟩)] } ∧
    on_ward (placeObsWith exOwnerBare) App.init =
      Except.error (Fault.raised "could not get player slot from ward entity") ∧
    (4 : Nat) >>> 1 = 2 := by
  have h1 := placement_player_slot_resolution.1 (placeObsWith exOwner) App.init exOwner
    11 4 exPlayer 900 rfl rfl rfl rfl (by with_unfolding_all rfl) rfl
  have h2 := placement_player_slot_resolution.2.1 (placeObsWith exOwnerFallback) App.init
    exOwnerFallback 11 4 exPlayer 900 rfl rfl rfl rfl rfl (by with_unfolding_all rfl) rfl
  have h3 := placement_player_slot_resolution.2.2 (placeObsWith exOwnerBare) App.init
    exOwnerBare 11 rfl rfl rfl rfl rfl
  exact ⟨by rw [h1]; with_unfolding_all rfl, by rw [h2]; with_unfolding_all rfl, h3, rfl⟩

/-! ## Claim C9 -/

/-- Claim C9: `is_radiant` records, at placement time, whether the placing
player's roster team number equals 2; the drain copies the stored flag
verbatim (it only depends on the registry entry), so the roster state at
drain time cannot change it. -/
theorem is_radiant_placement_time :
    (∀ (obs : WardObs) (app a' : App),
      obs.event = WardEvent.Placed → on_ward obs app = Except.ok a' →
      ∃ ow raw p,
        obs.owner = some ow ∧
        (ow.m_nPlayerID = some raw ∨ (ow.m_nPlayerID = none ∧ ow.m_iPlayerID = some raw)) ∧
        obs.players.get? (raw >>> 1) = some p ∧
        ∃ entry, assocLookup obs.ward.handle a'.handle_to_entry = some entry ∧
          entry.is_radiant = (p.team == 2)) ∧
    (∀ (ctx : TickCtx) (st : Rat) (reg : List (Nat × WardEntry)) (e : PendingEntry)
       (o : Output) (entry : WardEntry),
      drainOne ctx st reg e = Except.ok o →
      assocLookup e.ward.handle reg = some entry →
      o.is_radiant = entry.is_radiant) ∧
    (∀ (ctx₁ ctx₂ : TickCtx) (st₁ st₂ : Rat) (reg : List (Nat × WardEntry)) (e : PendingEntry)
       (o₁ o₂ : Output),
      drainOne ctx₁ st₁ reg e = Except.ok o₁ →
      drainOne ctx₂ st₂ reg e = Except.ok o₂ →
      o₁.is_radiant = o₂.is_radiant) := by
  refine ⟨?_, ?_, ?_⟩
  · intro obs app a' hev h
    obtain ⟨oh, ow, raw, p, tk, hoh, how, hraw, hp, htk, ha'⟩ := on_ward_placed_ok_shape hev h
    subst ha'
    refine ⟨ow, raw, p, how, hraw, hp,
      ⟨p.hero_handle, tk, p.team == 2, obs.ward_class == WardClass.Observer⟩, ?_, rfl⟩
    simp [assocLookup]
  · intro ctx st reg e o entry h hreg
    exact (drainOne_fields h hreg).2.2.2.1
  · intro ctx₁ ctx₂ st₁ st₂ reg e o₁ o₂ h₁ h₂
    obtain ⟨entry, hreg⟩ := drainOne_ok_lookup h₁
    rw [(drainOne_fields h₁ hreg).2.2.2.1, (drainOne_fields h₂ hreg).2.2.2.1]

/-- Witness for C9: the concrete placement (roster team 2) stores
`is_radiant = true` and two drains under different drain-time rosters both
copy it. -/
theorem is_radiant_placement_time_witness :
    wOut.is_radiant = true ∧ wOut.is_radiant = (exPlayer.team == 2) := by
  have hcopy := is_radiant_placement_time.2.1 wCtx 5 wReg wEntry wOut ⟨21, 900, true, true⟩
    (by with_unfolding_all rfl) (by with_unfolding_all rfl)
  exact ⟨by rw [hcopy], by rw [hcopy]; with_unfolding_all rfl⟩

/-! ## Claim C10 -/

/-- Claim C10: `parse_replay` is deterministic — equal decoded inputs (the
decoded callback stream stands for the input byte buffer) and equal final
contexts give identical outcomes, ok result logs and error values alike. -/
theorem parse_replay_deterministic (t₁ t₂ : List TraceEvent) (c₁ c₂ : TickCtx)
    (ht : t₁ = t₂) (hc : c₁ = c₂) : parse_replay t₁ c₁ = parse_replay t₂ c₂ := by
  rw [ht, hc]

/-- Witness for C10 at a concrete replayed input. -/
theorem parse_replay_deterministic_witness :
    parse_replay c4Trace wCtx = parse_replay c4Trace wCtx :=
  parse_replay_deterministic c4Trace c4Trace wCtx wCtx rfl rfl

/-! ## Claim C2 -/

/-- Claim C2: the ghost list of finalized ward handles (one per Output, in
Result Log order) plus the still-queued handles always equals the FIFO
arrival order of terminal events — so the Result Log's order is terminal
arrival order, not placement order — and a successful tick-end drain with
a known start time produces one Output per queued entry, finalizes exactly
the queued handles in queue order, and leaves the queue empty. -/
theorem result_log_fifo_order :
    (∀ (t : List TraceEvent) (a : App), run t = Except.ok a →
      a.finalized ++ queueHandles a.pending_entries = terminalHandles t ∧
      a.result.length = a.finalized.length) ∧
    (∀ (ctx : TickCtx) (st : Rat) (app a' : App), ctx.start_time = some st →
      tick_end ctx app = Except.ok a' →
      a'.pending_entries = [] ∧
      a'.result.length = app.result.length + app.pending_entries.length ∧
      a'.finalized = app.finalized ++ queueHandles app.pending_entries) := by
  constructor
  · exact fun t a h => ⟨run_finalized_queue h, run_result_len h⟩
  · intro ctx st app a' hst h
    obtain ⟨outs, houts, ha'⟩ := tick_end_ok_shape hst h
    subst ha'
    simp [drainQueue_length houts]

/-- Scenario from the spec: ward 1 placed at tick 100, ward 2 placed at
tick 200, ward 2 expired at tick 300, ward 1 killed at tick 500, then a
tick-end with the start time known. -/
def c2Trace : List TraceEvent :=
  [TraceEvent.ward (placeObs 1 100), TraceEvent.ward (placeObs 2 200),
   TraceEvent.ward (expireObs 2 300), TraceEvent.ward (killObs 1 500),
   TraceEvent.tickEnd (exTickCtx (some 5))]

/-- The state `run c2Trace` reaches. -/
def c2App : App :=
  match run c2Trace with
  | Except.ok a => a
  | Except.error _ => App.init

/-- Witness for C2: on the spec's two-ward scenario, ward 2 (expired
first) is finalized before ward 1 (placed first, killed later): the
finalized order is `[2, 1]`, equal to terminal arrival order, with one
Output per finalized handle and an empty queue. -/
theorem result_log_fifo_order_witness :
    c2App.finalized = [2, 1] ∧
    terminalHandles c2Trace = [2, 1] ∧
    c2App.finalized ++ queueHandles c2App.pending_entries = terminalHandles c2Trace ∧
    c2App.result.length = c2App.finalized.length ∧
    c2App.pending_entries = [] := by
  have ha : run c2Trace = Except.ok c2App := by with_unfolding_all rfl
  have h := result_log_fifo_order.1 c2Trace c2App ha
  exact ⟨by with_unfolding_all rfl, by with_unfolding_all rfl, h.1, h.2,
    by with_unfolding_all rfl⟩

/-! ## Claim C1 -/

/-- Claim C1: per ward, when the trace carries at most one terminal event
for that ward (the upstream contract), at most one Output is ever
finalized for it; and exactly one is finalized once the run passes a
tick-end with a known start time that comes strictly after the ward's
terminal event. -/
theorem ward_single_output :
    (∀ (t : List TraceEvent) (a : App) (w : Nat),
      run t = Except.ok a →
      (terminalHandles t).count w ≤ 1 →
      a.finalized.count w ≤ 1 ∧ a.result.length = a.finalized.length) ∧
    (∀ (t₁ t₂ t₃ : List TraceEvent) (obs : WardObs) (ctx : TickCtx) (st : Rat) (a : App),
      run (t₁ ++ TraceEvent.ward obs :: (t₂ ++ TraceEvent.tickEnd ctx :: t₃)) = Except.ok a →
      isTerminal obs.event = true →
      ctx.start_time = some st →
      (terminalHandles (t₁ ++ TraceEvent.ward obs :: (t₂ ++ TraceEvent.tickEnd ctx :: t₃))).count
        obs.ward.handle ≤ 1 →
      a.finalized.count obs.ward.handle = 1) := by
  have upper : ∀ (t : List TraceEvent) (a : App) (w : Nat),
      run t = Except.ok a → (terminalHandles t).count w ≤ 1 → a.finalized.count w ≤ 1 := by
    intro t a w h hcount
    have hq := run_finalized_queue h
    have : a.finalized.count w + (queueHandles a.pending_entries).count w
        = (terminalHandles t).count w := by
      rw [← List.count_append, hq]
    omega
  constructor
  · exact fun t a w h hcount => ⟨upper t a w h hcount, run_result_len h⟩
  · intro t₁ t₂ t₃ obs ctx st a h hterm hst hcount
    set w := obs.ward.handle with hw
    have hle : a.finalized.count w ≤ 1 := upper _ a w h hcount
    -- decompose the run at the tick-end
    have hshape : t₁ ++ TraceEvent.ward obs :: (t₂ ++ TraceEvent.tickEnd ctx :: t₃)
        = ((t₁ ++ TraceEvent.ward obs :: t₂) ++ [TraceEvent.tickEnd ctx]) ++ t₃ := by
      simp [List.append_assoc]
    rw [run, hshape] at h
    obtain ⟨b, hb, hb3⟩ := runFrom_append_ok h
    -- the prefix including the tick-end drains the whole queue
    obtain ⟨c, hc, hcb⟩ := runFrom_append_ok hb
    have hstep : step (TraceEvent.tickEnd ctx) c = Except.ok b := by
      simp only [runFrom] at hcb
      cases hs : step (TraceEvent.tickEnd ctx) c with
      | error f => rw [hs] at hcb; exact absurd hcb (by simp)
      | ok b' =>
        rw [hs] at hcb
        simp only [runFrom] at hcb
        cases hcb
        rfl
    have hbq : b.pending_entries = [] := by
      simp only [step] at hstep
      obtain ⟨outs, _, hb'⟩ := tick_end_ok_shape hst hstep
      subst hb'
      rfl
    -- the prefix contains the ward's terminal event
    have hbfin : b.finalized ++ queueHandles b.pending_entries
        = terminalHandles ((t₁ ++ TraceEvent.ward obs :: t₂) ++ [TraceEvent.tickEnd ctx]) :=
      runFrom_finalized_queue hb
    have hbfin' : b.finalized
        = terminalHandles t₁ ++ (w :: terminalHandles t₂) := by
      rw [hbq] at hbfin
      simp only [queueHandles, List.map_nil, List.append_nil] at hbfin
      rw [hbfin, terminalHandles_append, terminalHandles_append]
      simp [terminalHandles, hterm]
    have hone : 1 ≤ b.finalized.count w := by
      rw [hbfin']
      rw [List.count_append]
      simp only [List.count_cons_self]
      omega
    -- finalized only grows afterwards
    obtain ⟨s, hs⟩ := runFrom_finalized_mono hb3
    have : 1 ≤ a.finalized.count w := by
      rw [hs, List.count_append]
      omega
    omega

/-- Placement followed by a kill and a successful tick-end for ward 7. -/
def c1App : App :=
  match run ([TraceEvent.ward (placeObs 7 900)] ++ TraceEvent.ward (killObs 7 1200) ::
      ([] ++ TraceEvent.tickEnd (exTickCtx (some 5)) :: [])) with
  | Except.ok a => a
  | Except.error _ => App.init

/-- Witness for C1: ward 7, placed then killed then drained at a tick-end
with the start time known, is finalized exactly once. -/
theorem ward_single_output_witness :
    c1App.finalized.count 7 = 1 ∧ c1App.result.length = 1 := by
  have h := ward_single_output.2 [TraceEvent.ward (placeObs 7 900)] [] []
    (killObs 7 1200) (exTickCtx (some 5)) 5 c1App
    (by with_unfolding_all rfl) (by with_unfolding_all rfl) rfl
    (by with_unfolding_all decide)
  exact ⟨h, by with_unfolding_all rfl⟩
